import Mathlib

/-!
Shallow embedding of the core of `src/main.py` (a Discord event-panel bot):
the zero-width steganographic payload codec (`_hide_payload` / `_reveal_payload`),
the greedy per-character text wrapper inside `draw_multiline`, the party-size
formatter `fmt_players`, the signup toggle `MysterySignupView._toggle_role`,
and the history registration `register_mystery_history`.

Python strings are modelled as lists of Unicode code points (`PyStr`), `bytes`
values as lists of naturals below 256.  Fallible library calls
(`base64.b64decode`, `bytes.decode("utf-8")`, `int(...)`) are modelled as
`Except String` values so that the `try/except` blocks of the source can be
modelled as catching the error value and substituting a sentinel.
-/

namespace Madamisu

/-- A Python `str`: a sequence of Unicode code points. -/
abbrev PyStr := List Nat

/-- Code points of a Lean string literal, for transcribing the source's literals. -/
def strCodes (s : String) : PyStr := s.data.map Char.toNat

/-- Zero-width space, the bit marker for `0` (`_ZW0` in src/main.py:128). -/
def _ZW0 : Nat := 0x200B

/-- Zero-width non-joiner, the bit marker for `1` (`_ZW1` in src/main.py:128). -/
def _ZW1 : Nat := 0x200C

/-- Zero-width joiner, the payload marker (called `_ZWPREFIX` in src/main.py:128;
abbreviated `_ZWJ` in this development). -/
def _ZWJ : Nat := 0x200D

/-- Code point of one binary digit, as emitted by the `f'{b:08b}'` format. -/
def bitChar (b : Nat) : Nat := if b = 1 then 49 else 48

/-- `f'{b:08b}'` for a byte `b < 256`: eight binary digits, most significant first. -/
def byteToBits (b : Nat) : List Nat :=
  [bitChar (b / 128 % 2), bitChar (b / 64 % 2), bitChar (b / 32 % 2), bitChar (b / 16 % 2),
   bitChar (b / 8 % 2), bitChar (b / 4 % 2), bitChar (b / 2 % 2), bitChar (b % 2)]

/-- Numeric value of a binary digit code point. -/
def digitVal (c : Nat) : Nat := if c = 49 then 1 else 0

/-- `int(bits, 2)` on a string of binary digits. -/
def binToNat (bits : List Nat) : Nat := bits.foldl (fun acc c => acc * 2 + digitVal c) 0

/-- `bytes(int(bits[i:i+8], 2) for i in range(0, len(bits), 8))`: regroup the bit
string into bytes, eight digits at a time (`_reveal_payload` only runs this after
checking the length is a multiple of eight; a shorter final chunk would be parsed
as one extra byte, as in the Python generator expression). -/
def bitsToBytes : List Nat → List Nat
  | b0 :: b1 :: b2 :: b3 :: b4 :: b5 :: b6 :: b7 :: rest =>
      binToNat [b0, b1, b2, b3, b4, b5, b6, b7] :: bitsToBytes rest
  | [] => []
  | rest => [binToNat rest]

/-- Base64 alphabet byte (ASCII code) of a sextet, per CPython `base64.b64encode`. -/
def sextetChar (n : Nat) : Nat :=
  if n < 26 then 65 + n
  else if n < 52 then 97 + (n - 26)
  else if n < 62 then 48 + (n - 52)
  else if n = 62 then 43
  else 47

/-- Models CPython `base64.b64encode` on a bytes value (RFC 4648, with padding). -/
def b64encode : List Nat → List Nat
  | [] => []
  | [a] => [sextetChar (a / 4), sextetChar (a % 4 * 16), 61, 61]
  | [a, b] => [sextetChar (a / 4), sextetChar (a % 4 * 16 + b / 16), sextetChar (b % 16 * 4), 61]
  | a :: b :: c :: rest =>
      sextetChar (a / 4) :: sextetChar (a % 4 * 16 + b / 16) ::
        sextetChar (b % 16 * 4 + c / 64) :: sextetChar (c % 64) :: b64encode rest

/-- Whether a byte is in the base64 alphabet or is the padding byte `'='`; CPython
`b64decode` (with the default `validate=False`) discards every other byte before
decoding. -/
def isB64Byte (c : Nat) : Bool :=
  (65 ≤ c && c ≤ 90) || (97 ≤ c && c ≤ 122) || (48 ≤ c && c ≤ 57) ||
    c == 43 || c == 47 || c == 61

/-- Sextet value of a base64 alphabet byte. -/
def sextetVal (c : Nat) : Option Nat :=
  if 65 ≤ c ∧ c ≤ 90 then some (c - 65)
  else if 97 ≤ c ∧ c ≤ 122 then some (c - 97 + 26)
  else if 48 ≤ c ∧ c ≤ 57 then some (c - 48 + 52)
  else if c = 43 then some 62
  else if c = 47 then some 63
  else none

/-- Quad-by-quad base64 decoding after the filtering step, modelling
`binascii.a2b_base64`; a `binascii.Error` is modelled as `Except.error`. -/
def b64decodeQuads : List Nat → Except String (List Nat)
  | [] => .ok []
  | c0 :: c1 :: c2 :: c3 :: rest =>
    match sextetVal c0, sextetVal c1 with
    | some v0, some v1 =>
      if c2 = 61 then
        if c3 = 61 ∧ rest = [] then .ok [v0 * 4 + v1 / 16]
        else .error "Invalid base64-encoded string"
      else
        match sextetVal c2 with
        | some v2 =>
          if c3 = 61 then
            if rest = [] then .ok [v0 * 4 + v1 / 16, v1 % 16 * 16 + v2 / 4]
            else .error "Invalid base64-encoded string"
          else
            match sextetVal c3 with
            | some v3 =>
                (b64decodeQuads rest).map
                  (fun ds =>
                    (v0 * 4 + v1 / 16) :: (v1 % 16 * 16 + v2 / 4) :: (v2 % 4 * 64 + v3) :: ds)
            | none => .error "Invalid base64-encoded string"
        | none => .error "Invalid base64-encoded string"
    | _, _ => .error "Invalid base64-encoded string"
  | _ => .error "Invalid padding"

/-- Models CPython `base64.b64decode` with the default `validate=False`. -/
def pyB64Decode (data : List Nat) : Except String (List Nat) :=
  b64decodeQuads (data.filter isB64Byte)

/-- A code point CPython can encode to UTF-8: every Unicode scalar value
(the surrogate range is rejected by `str.encode("utf-8")`). -/
def ValidScalar (c : Nat) : Prop := c < 0xD800 ∨ (0xE000 ≤ c ∧ c < 0x110000)

instance : DecidablePred ValidScalar := fun c => by unfold ValidScalar; infer_instance

/-- UTF-8 encoding of one code point, as produced by `str.encode("utf-8")`. -/
def utf8EncodeChar (c : Nat) : List Nat :=
  if c < 0x80 then [c]
  else if c < 0x800 then [0xC0 + c / 64, 0x80 + c % 64]
  else if c < 0x10000 then [0xE0 + c / 4096, 0x80 + c / 64 % 64, 0x80 + c % 64]
  else [0xF0 + c / 262144, 0x80 + c / 4096 % 64, 0x80 + c / 64 % 64, 0x80 + c % 64]

/-- Models `str.encode("utf-8")`. -/
def utf8Encode (s : PyStr) : List Nat := (s.map utf8EncodeChar).flatten

/-- One step of strict UTF-8 decoding: decode the leading code point of the byte
sequence and return it with the remaining bytes.  Rejects bad start and
continuation bytes, overlong forms, surrogates and code points above U+10FFFF,
exactly as CPython's strict UTF-8 decoder does. -/
def utf8DecodeOne : List Nat → Except String (Nat × List Nat)
  | [] => .error "unexpected end of data"
  | b :: rest =>
    if b < 0x80 then .ok (b, rest)
    else if b < 0xC2 then .error "invalid start byte"
    else if b < 0xE0 then
      match rest with
      | b1 :: rest1 =>
        if 0x80 ≤ b1 ∧ b1 < 0xC0 then .ok ((b - 0xC0) * 64 + (b1 - 0x80), rest1)
        else .error "invalid continuation byte"
      | [] => .error "unexpected end of data"
    else if b < 0xF0 then
      match rest with
      | b1 :: b2 :: rest2 =>
        if (if b = 0xE0 then 0xA0 ≤ b1 ∧ b1 < 0xC0
            else if b = 0xED then 0x80 ≤ b1 ∧ b1 < 0xA0
            else 0x80 ≤ b1 ∧ b1 < 0xC0) ∧ 0x80 ≤ b2 ∧ b2 < 0xC0 then
          .ok ((b - 0xE0) * 4096 + (b1 - 0x80) * 64 + (b2 - 0x80), rest2)
        else .error "invalid continuation byte"
      | _ => .error "unexpected end of data"
    else if b < 0xF5 then
      match rest with
      | b1 :: b2 :: b3 :: rest3 =>
        if (if b = 0xF0 then 0x90 ≤ b1 ∧ b1 < 0xC0
            else if b = 0xF4 then 0x80 ≤ b1 ∧ b1 < 0x90
            else 0x80 ≤ b1 ∧ b1 < 0xC0) ∧ 0x80 ≤ b2 ∧ b2 < 0xC0 ∧ 0x80 ≤ b3 ∧ b3 < 0xC0 then
          .ok ((b - 0xF0) * 262144 + (b1 - 0x80) * 4096 + (b2 - 0x80) * 64 + (b3 - 0x80), rest3)
        else .error "invalid continuation byte"
      | _ => .error "unexpected end of data"
    else .error "invalid start byte"

/-- Strict UTF-8 decoding loop: decode code points one at a time until the bytes are
exhausted.  The fuel argument makes the recursion structural; every successful
`utf8DecodeOne` step consumes at least one byte, so a fuel of the byte length
(what `pyUtf8Decode` passes) is never exhausted. -/
def utf8DecodeLoop : Nat → List Nat → Except String PyStr
  | _, [] => .ok []
  | 0, _ :: _ => .error "unexpected end of data"
  | fuel + 1, b :: rest =>
    match utf8DecodeOne (b :: rest) with
    | .ok (c, rest1) => (utf8DecodeLoop fuel rest1).map (fun cs => c :: cs)
    | .error e => .error e

/-- Models strict `bytes.decode("utf-8")` (the CPython default); a
`UnicodeDecodeError` is modelled as `Except.error`. -/
def pyUtf8Decode (l : List Nat) : Except String PyStr := utf8DecodeLoop l.length l

/-- The key `"participant="`, used both by the legacy compatibility check of
`_reveal_payload` and by the id parsing in `_toggle_role`. -/
def participantKey : PyStr := strCodes "participant="

/-- The key `"spectator="`. -/
def spectatorKey : PyStr := strCodes "spectator="

/-- Python `sub in s` on strings: contiguous substring test. -/
def strContains (s sub : PyStr) : Bool :=
  match s with
  | [] => sub.isEmpty
  | _ :: t => sub.isPrefixOf s || strContains t sub

/-- `_hide_payload` (src/main.py:130-133): base64-encode the UTF-8 bytes, expand to
a bit string, map each bit to a zero-width marker and prepend the payload marker. -/
def _hide_payload (s : PyStr) : PyStr :=
  let b64 := b64encode (utf8Encode s)
  let bits := (b64.map byteToBits).flatten
  _ZWJ :: bits.map (fun bit => if bit = 49 then _ZW1 else _ZW0)

/-- The bit string collected by `_reveal_payload` (src/main.py:139): every
`_ZW0`/`_ZW1` character of the carrier, in order, as binary digits `'0'`/`'1'`. -/
def markerBits (s : PyStr) : List Nat :=
  (s.filter (fun ch => ch == _ZW0 || ch == _ZW1)).map (fun ch => if ch = _ZW1 then 49 else 48)

/-- The body of the `try:` block of `_reveal_payload` (src/main.py:143-146):
base64-decode, then UTF-8-decode. -/
def revealTryBody (data : List Nat) : Except String PyStr :=
  (pyB64Decode data).bind pyUtf8Decode

/-- `_reveal_payload` (src/main.py:135-149). -/
def _reveal_payload (s : PyStr) : Option PyStr :=
  match s with
  | [] => none
  | c :: _ =>
    if c = _ZWJ then
      let bits := markerBits s
      if bits.length % 8 ≠ 0 then none
      else
        match revealTryBody (bitsToBytes bits) with
        | .ok r => some r
        | .error _ => none
    else if strContains s participantKey && strContains s spectatorKey then some s
    else none

/-! ### Bit-string round-trip lemmas -/

theorem digitVal_bitChar (x : Nat) (h : x < 2) : digitVal (bitChar x) = x := by
  interval_cases x <;> rfl

theorem binToNat_byteToBits (b : Nat) (hb : b < 256) : binToNat (byteToBits b) = b := by
  have h1 := digitVal_bitChar (b / 128 % 2) (by omega)
  have h2 := digitVal_bitChar (b / 64 % 2) (by omega)
  have h3 := digitVal_bitChar (b / 32 % 2) (by omega)
  have h4 := digitVal_bitChar (b / 16 % 2) (by omega)
  have h5 := digitVal_bitChar (b / 8 % 2) (by omega)
  have h6 := digitVal_bitChar (b / 4 % 2) (by omega)
  have h7 := digitVal_bitChar (b / 2 % 2) (by omega)
  have h8 := digitVal_bitChar (b % 2) (by omega)
  simp only [byteToBits, binToNat, List.foldl, h1, h2, h3, h4, h5, h6, h7, h8]
  omega

theorem bitsToBytes_cons8 (b0 b1 b2 b3 b4 b5 b6 b7 : Nat) (rest : List Nat) :
    bitsToBytes (b0 :: b1 :: b2 :: b3 :: b4 :: b5 :: b6 :: b7 :: rest) =
      binToNat [b0, b1, b2, b3, b4, b5, b6, b7] :: bitsToBytes rest := rfl

theorem bitsToBytes_flatten (bs : List Nat) (hb : ∀ b ∈ bs, b < 256) :
    bitsToBytes ((bs.map byteToBits).flatten) = bs := by
  induction bs with
  | nil => rfl
  | cons b rest ih =>
    have hb0 : b < 256 := hb b (List.mem_cons_self b rest)
    simp only [List.map_cons, List.flatten_cons, byteToBits, List.cons_append, List.nil_append,
      bitsToBytes_cons8]
    rw [show binToNat [bitChar (b / 128 % 2), bitChar (b / 64 % 2), bitChar (b / 32 % 2),
        bitChar (b / 16 % 2), bitChar (b / 8 % 2), bitChar (b / 4 % 2), bitChar (b / 2 % 2),
        bitChar (b % 2)] = b from binToNat_byteToBits b hb0]
    rw [ih (fun x hx => hb x (List.mem_cons_of_mem _ hx))]

theorem bitChar_eq (v : Nat) : bitChar v = 48 ∨ bitChar v = 49 := by
  unfold bitChar; split <;> simp

theorem flatten_byteToBits_length (bs : List Nat) :
    ((bs.map byteToBits).flatten).length = 8 * bs.length := by
  induction bs with
  | nil => rfl
  | cons b rest ih =>
    simp only [List.map_cons, List.flatten_cons, List.length_append, ih, byteToBits]
    simp [List.length]
    omega

theorem flatten_byteToBits_digits (bs : List Nat) :
    ∀ x ∈ (bs.map byteToBits).flatten, x = 48 ∨ x = 49 := by
  induction bs with
  | nil => simp
  | cons b rest ih =>
    intro x hx
    simp only [List.map_cons, List.flatten_cons, List.mem_append] at hx
    rcases hx with hx | hx
    · simp only [byteToBits, List.mem_cons, List.not_mem_nil, or_false] at hx
      rcases hx with rfl | rfl | rfl | rfl | rfl | rfl | rfl | rfl <;> exact bitChar_eq _
    · exact ih x hx

/-! ### Base64 round-trip lemmas -/

theorem sextetVal_sextetChar : ∀ n, n < 64 → sextetVal (sextetChar n) = some n := by decide

theorem sextetChar_ne_padByte (n : Nat) : sextetChar n ≠ 61 := by
  unfold sextetChar; split_ifs <;> omega

theorem isB64Byte_sextetChar (n : Nat) : isB64Byte (sextetChar n) = true := by
  unfold sextetChar isB64Byte
  split_ifs <;> simp <;> omega

theorem isB64Byte_lt (c : Nat) (h : isB64Byte c = true) : c < 256 := by
  simp [isB64Byte] at h; omega

theorem b64encode_isB64 : ∀ bs : List Nat, ∀ ch ∈ b64encode bs, isB64Byte ch = true
  | [] => by simp [b64encode]
  | [a] => by
    intro ch hch
    simp only [b64encode, List.mem_cons, List.not_mem_nil, or_false] at hch
    rcases hch with rfl | rfl | rfl | rfl
    · exact isB64Byte_sextetChar _
    · exact isB64Byte_sextetChar _
    · rfl
    · rfl
  | [a, b] => by
    intro ch hch
    simp only [b64encode, List.mem_cons, List.not_mem_nil, or_false] at hch
    rcases hch with rfl | rfl | rfl | rfl
    · exact isB64Byte_sextetChar _
    · exact isB64Byte_sextetChar _
    · exact isB64Byte_sextetChar _
    · rfl
  | a :: b :: c :: d :: rest => by
    intro ch hch
    simp only [b64encode, List.mem_cons] at hch
    rcases hch with rfl | rfl | rfl | rfl | hch
    · exact isB64Byte_sextetChar _
    · exact isB64Byte_sextetChar _
    · exact isB64Byte_sextetChar _
    · exact isB64Byte_sextetChar _
    · exact b64encode_isB64 (d :: rest) ch hch
  | [a, b, c] => by
    intro ch hch
    simp only [b64encode, List.mem_cons] at hch
    rcases hch with rfl | rfl | rfl | rfl | hch
    · exact isB64Byte_sextetChar _
    · exact isB64Byte_sextetChar _
    · exact isB64Byte_sextetChar _
    · exact isB64Byte_sextetChar _
    · simp at hch

theorem b64decodeQuads_encode : ∀ bs : List Nat, (∀ b ∈ bs, b < 256) →
    b64decodeQuads (b64encode bs) = .ok bs
  | [], _ => rfl
  | [a], h => by
    have ha : a < 256 := h a (by simp)
    have e0 := sextetVal_sextetChar (a / 4) (by omega)
    have e1 := sextetVal_sextetChar (a % 4 * 16) (by omega)
    have v : a / 4 * 4 + a % 4 * 16 / 16 = a := by omega
    simp only [b64encode, b64decodeQuads, e0, e1, and_self, if_true, v]
  | [a, b], h => by
    have ha : a < 256 := h a (by simp)
    have hb : b < 256 := h b (by simp)
    have e0 := sextetVal_sextetChar (a / 4) (by omega)
    have e1 := sextetVal_sextetChar (a % 4 * 16 + b / 16) (by omega)
    have e2 := sextetVal_sextetChar (b % 16 * 4) (by omega)
    have v1 : a / 4 * 4 + (a % 4 * 16 + b / 16) / 16 = a := by omega
    have v2 : (a % 4 * 16 + b / 16) % 16 * 16 + b % 16 * 4 / 4 = b := by omega
    simp only [b64encode, b64decodeQuads, e0, e1, e2, and_self, if_true, v1, v2,
      if_neg (sextetChar_ne_padByte (b % 16 * 4))]
  | [a, b, c], h => by
    have ha : a < 256 := h a (by simp)
    have hb : b < 256 := h b (by simp)
    have hc : c < 256 := h c (by simp)
    have e0 := sextetVal_sextetChar (a / 4) (by omega)
    have e1 := sextetVal_sextetChar (a % 4 * 16 + b / 16) (by omega)
    have e2 := sextetVal_sextetChar (b % 16 * 4 + c / 64) (by omega)
    have e3 := sextetVal_sextetChar (c % 64) (by omega)
    have v1 : a / 4 * 4 + (a % 4 * 16 + b / 16) / 16 = a := by omega
    have v2 : (a % 4 * 16 + b / 16) % 16 * 16 + (b % 16 * 4 + c / 64) / 4 = b := by omega
    have v3 : (b % 16 * 4 + c / 64) % 4 * 64 + c % 64 = c := by omega
    simp only [b64encode, b64decodeQuads, e0, e1, e2, e3, v1, v2, v3,
      if_neg (sextetChar_ne_padByte (b % 16 * 4 + c / 64)),
      if_neg (sextetChar_ne_padByte (c % 64)), Except.map]
  | a :: b :: c :: d :: rest, h => by
    have ha : a < 256 := h a (by simp)
    have hb : b < 256 := h b (by simp)
    have hc : c < 256 := h c (by simp)
    have ih := b64decodeQuads_encode (d :: rest)
      (fun x hx => h x (by simp only [List.mem_cons] at hx ⊢; tauto))
    have e0 := sextetVal_sextetChar (a / 4) (by omega)
    have e1 := sextetVal_sextetChar (a % 4 * 16 + b / 16) (by omega)
    have e2 := sextetVal_sextetChar (b % 16 * 4 + c / 64) (by omega)
    have e3 := sextetVal_sextetChar (c % 64) (by omega)
    have v1 : a / 4 * 4 + (a % 4 * 16 + b / 16) / 16 = a := by omega
    have v2 : (a % 4 * 16 + b / 16) % 16 * 16 + (b % 16 * 4 + c / 64) / 4 = b := by omega
    have v3 : (b % 16 * 4 + c / 64) % 4 * 64 + c % 64 = c := by omega
    simp only [b64encode, b64decodeQuads, e0, e1, e2, e3, v1, v2, v3,
      if_neg (sextetChar_ne_padByte (b % 16 * 4 + c / 64)),
      if_neg (sextetChar_ne_padByte (c % 64)), ih, Except.map]

theorem pyB64Decode_encode (bs : List Nat) (h : ∀ b ∈ bs, b < 256) :
    pyB64Decode (b64encode bs) = .ok bs := by
  unfold pyB64Decode
  rw [List.filter_eq_self.mpr (b64encode_isB64 bs), b64decodeQuads_encode bs h]

/-! ### UTF-8 round-trip lemmas -/

theorem utf8EncodeChar_lt (c : Nat) (h : ValidScalar c) : ∀ b ∈ utf8EncodeChar c, b < 256 := by
  intro b hb
  unfold ValidScalar at h
  unfold utf8EncodeChar at hb
  split_ifs at hb <;>
    simp only [List.mem_cons, List.not_mem_nil, or_false] at hb <;> omega

theorem utf8Encode_lt (s : PyStr) (h : ∀ c ∈ s, ValidScalar c) :
    ∀ b ∈ utf8Encode s, b < 256 := by
  intro b hb
  unfold utf8Encode at hb
  simp only [List.mem_flatten, List.mem_map] at hb
  obtain ⟨l, ⟨c, hcs, rfl⟩, hbl⟩ := hb
  exact utf8EncodeChar_lt c (h c hcs) b hbl

theorem utf8DecodeOne_encodeChar (c : Nat) (h : ValidScalar c) (tail : List Nat) :
    utf8DecodeOne (utf8EncodeChar c ++ tail) = .ok (c, tail) := by
  unfold ValidScalar at h
  unfold utf8EncodeChar
  by_cases h1 : c < 0x80
  · rw [if_pos h1]
    simp only [List.singleton_append]
    dsimp only [utf8DecodeOne]
    rw [if_pos h1]
  · rw [if_neg h1]
    by_cases h2 : c < 0x800
    · rw [if_pos h2]
      simp only [List.cons_append, List.nil_append]
      dsimp only [utf8DecodeOne]
      rw [if_neg (by omega), if_neg (by omega), if_pos (by omega), if_pos (by omega)]
      have v : (0xC0 + c / 64 - 0xC0) * 64 + (0x80 + c % 64 - 0x80) = c := by omega
      rw [v]
    · rw [if_neg h2]
      by_cases h3 : c < 0x10000
      · rw [if_pos h3]
        simp only [List.cons_append, List.nil_append]
        dsimp only [utf8DecodeOne]
        rw [if_neg (by omega), if_neg (by omega), if_neg (by omega), if_pos (by omega),
          if_pos (by refine ⟨?_, by omega, by omega⟩; split_ifs <;> omega)]
        have v : (0xE0 + c / 4096 - 0xE0) * 4096 + (0x80 + c / 64 % 64 - 0x80) * 64 +
            (0x80 + c % 64 - 0x80) = c := by omega
        rw [v]
      · rw [if_neg h3]
        simp only [List.cons_append, List.nil_append]
        dsimp only [utf8DecodeOne]
        rw [if_neg (by omega), if_neg (by omega), if_neg (by omega), if_neg (by omega),
          if_pos (by omega),
          if_pos (by refine ⟨?_, by omega, by omega, by omega⟩; split_ifs <;> omega)]
        have v : (0xF0 + c / 262144 - 0xF0) * 262144 + (0x80 + c / 4096 % 64 - 0x80) * 4096 +
            (0x80 + c / 64 % 64 - 0x80) * 64 + (0x80 + c % 64 - 0x80) = c := by omega
        rw [v]

theorem utf8EncodeChar_ne_nil (c : Nat) : utf8EncodeChar c ≠ [] := by
  unfold utf8EncodeChar; split_ifs <;> simp

theorem utf8Encode_cons (c : Nat) (cs : PyStr) :
    utf8Encode (c :: cs) = utf8EncodeChar c ++ utf8Encode cs := by
  simp [utf8Encode]

theorem utf8Encode_length_ge (s : PyStr) : s.length ≤ (utf8Encode s).length := by
  induction s with
  | nil => simp [utf8Encode]
  | cons c cs ih =>
    rw [utf8Encode_cons, List.length_append, List.length_cons]
    have h1 : 1 ≤ (utf8EncodeChar c).length := by
      rcases he : utf8EncodeChar c with _ | ⟨b, bs⟩
      · exact absurd he (utf8EncodeChar_ne_nil c)
      · simp
    omega

theorem utf8DecodeLoop_encode (fuel : Nat) : ∀ s : PyStr, s.length ≤ fuel →
    (∀ c ∈ s, ValidScalar c) → utf8DecodeLoop fuel (utf8Encode s) = .ok s := by
  induction fuel with
  | zero =>
    intro s hlen _
    have : s = [] := by cases s with | nil => rfl | cons c cs => simp at hlen
    subst this
    rfl
  | succ f ih =>
    intro s hlen hval
    cases s with
    | nil => rfl
    | cons c cs =>
      have hc : ValidScalar c := hval c (List.mem_cons_self c cs)
      rcases he : utf8EncodeChar c with _ | ⟨b, bs⟩
      · exact absurd he (utf8EncodeChar_ne_nil c)
      · have hstep : utf8DecodeOne (b :: (bs ++ utf8Encode cs)) = .ok (c, utf8Encode cs) := by
          have h0 := utf8DecodeOne_encodeChar c hc (utf8Encode cs)
          rwa [he, List.cons_append] at h0
        rw [utf8Encode_cons, he, List.cons_append]
        have hloop : utf8DecodeLoop (f + 1) (b :: (bs ++ utf8Encode cs)) =
            match utf8DecodeOne (b :: (bs ++ utf8Encode cs)) with
            | .ok (c1, rest1) => (utf8DecodeLoop f rest1).map (fun cs1 => c1 :: cs1)
            | .error e => .error e := by
          conv_lhs => unfold utf8DecodeLoop
        rw [hloop, hstep]
        dsimp only
        have hcs : cs.length ≤ f := by simp only [List.length_cons] at hlen; omega
        rw [ih cs hcs (fun x hx => hval x (List.mem_cons_of_mem _ hx))]
        rfl

theorem pyUtf8Decode_utf8Encode (s : PyStr) (h : ∀ c ∈ s, ValidScalar c) :
    pyUtf8Decode (utf8Encode s) = .ok s :=
  utf8DecodeLoop_encode (utf8Encode s).length s (utf8Encode_length_ge s) h

/-! ### Marker-character round-trip -/

theorem markerBits_hide (bits : List Nat) (h : ∀ x ∈ bits, x = 48 ∨ x = 49) :
    markerBits (_ZWJ :: bits.map (fun bit => if bit = 49 then _ZW1 else _ZW0)) = bits := by
  unfold markerBits
  rw [List.filter_cons_of_neg (by decide)]
  induction bits with
  | nil => rfl
  | cons x rest ih =>
    have hx : x = 48 ∨ x = 49 := h x (List.mem_cons_self x rest)
    have hrest := ih (fun y hy => h y (List.mem_cons_of_mem _ hy))
    rcases hx with rfl | rfl
    · simpa [_ZW0, _ZW1] using hrest
    · simpa [_ZW0, _ZW1] using hrest

/-! ### Claims C1-C4: the payload codec -/

/-- Claim C1: the payload codec round-trips.  For every UTF-8-encodable string `x`
(in particular every string of the form `participant=<uint>|spectator=<uint>`),
decoding the carrier produced by encoding yields the original string:
`_reveal_payload (_hide_payload x) = some x`. -/
theorem reveal_hide_roundtrip (s : PyStr) (h : ∀ c ∈ s, ValidScalar c) :
    _reveal_payload (_hide_payload s) = some s := by
  have hbytes : ∀ b ∈ b64encode (utf8Encode s), b < 256 :=
    fun b hb => isB64Byte_lt b (b64encode_isB64 _ b hb)
  show _reveal_payload (_ZWJ :: ((b64encode (utf8Encode s)).map byteToBits).flatten.map
      (fun bit => if bit = 49 then _ZW1 else _ZW0)) = some s
  dsimp only [_reveal_payload]
  rw [if_pos rfl, markerBits_hide _ (flatten_byteToBits_digits _),
    if_neg (by rw [flatten_byteToBits_length]; omega),
    bitsToBytes_flatten _ hbytes]
  dsimp only [revealTryBody]
  rw [pyB64Decode_encode _ (utf8Encode_lt s h)]
  dsimp only [Except.bind]
  rw [pyUtf8Decode_utf8Encode s h]

/-- Witness for C1 at a concrete payload of the documented form. -/
theorem reveal_hide_roundtrip_witness :
    _reveal_payload (_hide_payload (strCodes "participant=1|spectator=2")) =
      some (strCodes "participant=1|spectator=2") :=
  reveal_hide_roundtrip _ (by decide)

/-- Claim C2: a carrier that begins with the payload-marker character but whose
count of bit-marker characters is not a multiple of eight yields no payload. -/
theorem reveal_bad_bitcount (s : PyStr) (h1 : s.head? = some _ZWJ)
    (h2 : (markerBits s).length % 8 ≠ 0) : _reveal_payload s = none := by
  cases s with
  | nil => simp at h1
  | cons c t =>
    have hc : c = _ZWJ := by simpa using h1
    subst hc
    dsimp only [_reveal_payload]
    rw [if_pos rfl, if_pos h2]

/-- Witness for C2: a marker-prefixed carrier with a single bit marker. -/
theorem reveal_bad_bitcount_witness : _reveal_payload [_ZWJ, _ZW0] = none :=
  reveal_bad_bitcount [_ZWJ, _ZW0] rfl (by decide)

/-- Claim C3: on a carrier that does not begin with the payload-marker character,
`_reveal_payload` returns the input unchanged exactly when the input contains both
substrings `"participant="` and `"spectator="`, and the no-payload sentinel
otherwise (in particular on unrelated text and on the empty string). -/
theorem reveal_no_marker (s : PyStr) (h : s.head? ≠ some _ZWJ) :
    _reveal_payload s =
      if strContains s participantKey && strContains s spectatorKey then some s
      else none := by
  cases s with
  | nil => decide
  | cons c t =>
    have hc : ¬ c = _ZWJ := by simpa using h
    dsimp only [_reveal_payload]
    rw [if_neg hc]

/-- Witness for C3: unrelated text yields no payload; legacy plaintext containing
both keys passes through unchanged. -/
theorem reveal_no_marker_witness :
    _reveal_payload (strCodes "hello") = none ∧
    _reveal_payload (strCodes "participant=1|spectator=2") =
      some (strCodes "participant=1|spectator=2") := by
  constructor
  · rw [reveal_no_marker _ (by decide)]
    decide
  · rw [reveal_no_marker _ (by decide)]
    decide

/-- Claim C4: `_reveal_payload` is a total function — every input yields either a
string or the no-payload sentinel — and an error of the inner base64/UTF-8 decode
chain is caught on the marker path and surfaces as `none` instead of propagating. -/
theorem reveal_payload_total (s : PyStr) :
    ((∃ t, _reveal_payload s = some t) ∨ _reveal_payload s = none) ∧
    (∀ e, revealTryBody (bitsToBytes (markerBits s)) = Except.error e →
      s.head? = some _ZWJ → (markerBits s).length % 8 = 0 → _reveal_payload s = none) := by
  constructor
  · cases h : _reveal_payload s with
    | none => exact Or.inr rfl
    | some t => exact Or.inl ⟨t, rfl⟩
  · intro e he hhead hlen
    cases s with
    | nil => simp at hhead
    | cons c t =>
      have hc : c = _ZWJ := by simpa using hhead
      subst hc
      dsimp only [_reveal_payload]
      rw [if_pos rfl, if_neg (by omega), he]

/-- Witness for C4: a carrier whose eight bit markers decode to the byte `'A'`,
whose base64 decoding raises (one data character), caught and turned into `none`. -/
theorem reveal_payload_total_witness :
    _reveal_payload [_ZWJ, _ZW0, _ZW1, _ZW0, _ZW0, _ZW0, _ZW0, _ZW0, _ZW1] = none :=
  (reveal_payload_total _).2 "Invalid padding" rfl rfl rfl

/-! ### Text layout: the greedy per-character wrap of `draw_multiline` -/

/-- The character loop of `draw_multiline` (src/main.py:172-178): greedy
single-character packing against a pixel-width measure.  `tw` models the local
`text_w` closure (a `draw.textbbox` width, an arbitrary integer-valued measure
here), `lines` and `cur` the loop state. -/
def wrapGo (tw : PyStr → Int) (maxW : Int) : PyStr → List PyStr → PyStr → List PyStr
  | [], lines, cur => if cur = [] then lines else lines ++ [cur]
  | ch :: rest, lines, cur =>
    if tw (cur ++ [ch]) ≤ maxW then wrapGo tw maxW rest lines (cur ++ [ch])
    else wrapGo tw maxW rest (lines ++ [cur]) [ch]

/-- The list of wrapped lines produced inside `draw_multiline` (src/main.py:172-179).
For empty text the source returns height 0 before the loop, producing no lines,
which coincides with this definition. -/
def wrapLines (tw : PyStr → Int) (maxW : Int) (text : PyStr) : List PyStr :=
  wrapGo tw maxW text [] []

/-- Proof helper (not part of the source): the `k`-chunking of a list, used to
state what the greedy wrap produces under a uniform-fit measure. -/
def chunkList (k : Nat) (s : PyStr) : List PyStr :=
  if s = [] ∨ k = 0 then [] else s.take k :: chunkList k (s.drop k)
termination_by s.length
decreasing_by
  rename_i h
  push_neg at h
  have := List.length_pos.mpr h.1
  simp only [List.length_drop]
  omega

theorem chunkList_eq (k : Nat) (s : PyStr) :
    chunkList k s = if s = [] ∨ k = 0 then [] else s.take k :: chunkList k (s.drop k) := by
  conv_lhs => unfold chunkList

theorem wrapGo_append (tw : PyStr → Int) (maxW : Int) :
    ∀ (s : PyStr) (lines : List PyStr) (cur : PyStr),
      wrapGo tw maxW s lines cur = lines ++ wrapGo tw maxW s [] cur := by
  intro s
  induction s with
  | nil =>
    intro lines cur
    by_cases h : cur = [] <;> simp [wrapGo, h]
  | cons ch rest ih =>
    intro lines cur
    by_cases h : tw (cur ++ [ch]) ≤ maxW
    · simp only [wrapGo, if_pos h]
      exact ih lines (cur ++ [ch])
    · simp only [wrapGo, if_neg h, List.nil_append]
      rw [ih (lines ++ [cur]) [ch], ih [cur] [ch], List.append_assoc]

theorem wrapGo_flatten (tw : PyStr → Int) (maxW : Int) :
    ∀ (s : PyStr) (lines : List PyStr) (cur : PyStr),
      (wrapGo tw maxW s lines cur).flatten = lines.flatten ++ cur ++ s := by
  intro s
  induction s with
  | nil =>
    intro lines cur
    by_cases h : cur = [] <;> simp [wrapGo, h]
  | cons ch rest ih =>
    intro lines cur
    by_cases h : tw (cur ++ [ch]) ≤ maxW
    · simp only [wrapGo, if_pos h, ih]
      simp
    · simp only [wrapGo, if_neg h, ih]
      simp

theorem wrapGo_chunk (tw : PyStr → Int) (maxW : Int) (k : Nat) (hk : 0 < k)
    (hfit : ∀ t : PyStr, tw t ≤ maxW ↔ t.length ≤ k) :
    ∀ (s : PyStr) (cur : PyStr), cur.length ≤ k →
      wrapGo tw maxW s [] cur = chunkList k (cur ++ s) := by
  intro s
  induction s with
  | nil =>
    intro cur hcur
    by_cases h : cur = []
    · subst h
      rw [chunkList_eq]
      simp [wrapGo]
    · rw [show wrapGo tw maxW [] [] cur = [cur] from by simp [wrapGo, h]]
      rw [List.append_nil, chunkList_eq, if_neg (by push_neg; exact ⟨h, by omega⟩),
        List.take_of_length_le hcur, List.drop_eq_nil_of_le hcur, chunkList_eq]
      simp
  | cons ch rest ih =>
    intro cur hcur
    by_cases hf : cur.length + 1 ≤ k
    · have htw : tw (cur ++ [ch]) ≤ maxW := (hfit _).mpr (by simp; omega)
      rw [show wrapGo tw maxW (ch :: rest) [] cur = wrapGo tw maxW rest [] (cur ++ [ch]) from
        by simp [wrapGo, htw]]
      rw [ih (cur ++ [ch]) (by simp; omega), List.append_assoc]
      rfl
    · have hcurk : cur.length = k := by omega
      have htw : ¬ tw (cur ++ [ch]) ≤ maxW := by
        rw [hfit]
        simp
        omega
      rw [show wrapGo tw maxW (ch :: rest) [] cur = wrapGo tw maxW rest [cur] [ch] from
        by simp [wrapGo, htw]]
      rw [wrapGo_append, ih [ch] (by simpa using hk)]
      rw [chunkList_eq k (cur ++ ch :: rest),
        if_neg (by push_neg; exact ⟨by simp, by omega⟩),
        List.take_left' hcurk, List.drop_left' hcurk]
      rfl

theorem chunkList_length (k : Nat) (hk : 0 < k) (s : PyStr) :
    (chunkList k s).length = (s.length + k - 1) / k := by
  generalize hn : s.length = n
  induction n using Nat.strong_induction_on generalizing s with
  | _ n IH =>
    rw [chunkList_eq]
    by_cases h : s = []
    · subst h
      simp only [List.length_nil] at hn
      subst hn
      simp only [if_pos (Or.inl rfl), List.length_nil]
      exact (Nat.div_eq_of_lt (by omega)).symm
    · have hs : 0 < s.length := List.length_pos.mpr h
      rw [if_neg (by push_neg; exact ⟨h, by omega⟩)]
      simp only [List.length_cons]
      rw [IH (s.drop k).length (by simp only [List.length_drop]; omega) (s.drop k) rfl]
      simp only [List.length_drop]
      subst hn
      by_cases hle : s.length ≤ k
      · rw [show s.length - k = 0 from by omega]
        rw [Nat.div_eq_of_lt (by omega),
          show s.length + k - 1 = (s.length - 1) + k from by omega,
          Nat.add_div_right _ hk, Nat.div_eq_of_lt (by omega)]
      · rw [show s.length - k + k - 1 = (s.length - k - 1) + k from by omega,
          Nat.add_div_right _ hk,
          show s.length + k - 1 = (s.length - 1) + k from by omega,
          Nat.add_div_right _ hk,
          show s.length - 1 = (s.length - 1 - k) + k from by omega,
          Nat.add_div_right _ hk,
          show s.length - k - 1 = s.length - 1 - k from by omega]

theorem chunkList_forall (k : Nat) (hk : 0 < k) (s : PyStr) :
    ∀ l ∈ chunkList k s, l.length ≤ k ∧ l ≠ [] := by
  generalize hn : s.length = n
  induction n using Nat.strong_induction_on generalizing s with
  | _ n IH =>
    rw [chunkList_eq]
    by_cases h : s = []
    · simp [h]
    · have hs : 0 < s.length := List.length_pos.mpr h
      rw [if_neg (by push_neg; exact ⟨h, by omega⟩)]
      intro l hl
      rcases List.mem_cons.mp hl with rfl | hl
      · refine ⟨by rw [List.length_take]; omega, ?_⟩
        rw [Ne, List.take_eq_nil_iff]
        push_neg
        exact ⟨by omega, h⟩
      · exact IH (s.drop k).length (by simp only [List.length_drop]; omega) (s.drop k) rfl
          l hl

theorem chunkList_ne_nil (k : Nat) (hk : 0 < k) (s : PyStr) (h : s ≠ []) :
    chunkList k s ≠ [] := by
  rw [chunkList_eq, if_neg (by push_neg; exact ⟨h, by omega⟩)]
  simp

/-! ### Claims C5 and C10: the text wrap -/

/-- Claim C5: wrapping a non-empty `N`-character string under a measure for which a
line fits exactly when it has at most `k` characters (so each single character is
narrower than the budget, and the budget holds exactly `k` characters per line)
produces `⌈N/k⌉` lines, each measured within the budget, all non-empty — in
particular the last produced line is non-empty. -/
theorem wrap_fixed_width_spec (tw : PyStr → Int) (maxW : Int) (k : Nat) (s : PyStr)
    (hk : 0 < k) (hs : s ≠ [])
    (hfit : ∀ t : PyStr, tw t ≤ maxW ↔ t.length ≤ k) :
    (wrapLines tw maxW s).length = (s.length + k - 1) / k ∧
    (∀ l ∈ wrapLines tw maxW s, tw l ≤ maxW) ∧
    wrapLines tw maxW s ≠ [] ∧
    (∀ l ∈ wrapLines tw maxW s, l ≠ []) := by
  have heq : wrapLines tw maxW s = chunkList k s := by
    have h0 := wrapGo_chunk tw maxW k hk hfit s [] (by simp)
    simpa [wrapLines] using h0
  refine ⟨?_, ?_, ?_, ?_⟩
  · rw [heq]
    exact chunkList_length k hk s
  · intro l hl
    rw [hfit]
    exact (chunkList_forall k hk s l (heq ▸ hl)).1
  · rw [heq]
    exact chunkList_ne_nil k hk s hs
  · intro l hl
    exact (chunkList_forall k hk s l (heq ▸ hl)).2

/-- Witness for C5: three unit-width characters into a budget of two per line give
two lines, within budget and non-empty. -/
theorem wrap_fixed_width_spec_witness :
    (wrapLines (fun t => (t.length : Int)) 2 [97, 98, 99]).length = (3 + 2 - 1) / 2 ∧
    (∀ l ∈ wrapLines (fun t => (t.length : Int)) 2 [97, 98, 99],
      (fun t : PyStr => (t.length : Int)) l ≤ 2) ∧
    wrapLines (fun t => (t.length : Int)) 2 [97, 98, 99] ≠ [] ∧
    (∀ l ∈ wrapLines (fun t => (t.length : Int)) 2 [97, 98, 99], l ≠ []) :=
  wrap_fixed_width_spec (fun t => (t.length : Int)) 2 2 [97, 98, 99] (by omega) (by simp)
    (fun t => by show (t.length : Int) ≤ 2 ↔ t.length ≤ 2; omega)

/-- Claim C10 (implicit): the wrap step preserves content — concatenating the
produced lines in order gives back the input, with nothing dropped, duplicated or
reordered, even when a single character is wider than the budget (the empty line
such a character produces contributes nothing to the concatenation). -/
theorem wrap_join_preserves (tw : PyStr → Int) (maxW : Int) (s : PyStr) (_hs : s ≠ []) :
    (wrapLines tw maxW s).flatten = s := by
  have h0 := wrapGo_flatten tw maxW s [] []
  simpa [wrapLines] using h0

/-- Witness for C10, with every character wider (width 5) than the budget (3). -/
theorem wrap_join_preserves_witness :
    (wrapLines (fun t => (5 * t.length : Int)) 3 [97, 98]).flatten = [97, 98] :=
  wrap_join_preserves (fun t => (5 * t.length : Int)) 3 [97, 98] (by simp)

/-! ### Claim C6: party-size formatting (`fmt_players`) -/

/-- ASCII whitespace, as stripped by `str.strip()` (whose full Unicode whitespace
set is not modelled; the claims here only involve ASCII). -/
def pyWhitespace (c : Nat) : Bool :=
  c == 32 || c == 9 || c == 10 || c == 11 || c == 12 || c == 13

/-- Models `str.strip()` restricted to ASCII whitespace. -/
def pyStrip (s : PyStr) : PyStr :=
  ((s.dropWhile pyWhitespace).reverse.dropWhile pyWhitespace).reverse

/-- Models `str.isdigit()` restricted to the ASCII digits (CPython also accepts
other Unicode digit-category characters, which the claims do not involve):
non-empty and all characters decimal digits. -/
def pyIsdigit (s : PyStr) : Bool :=
  !s.isEmpty && s.all (fun c => 48 ≤ c && c ≤ 57)

/-- The fixed unit suffix of `fmt_players`: `" 名"`. -/
def unitSuffix : PyStr := strCodes " 名"

/-- `fmt_players` (src/main.py:256-258): `s = str(p).strip()`, then append the
unit suffix when `s.isdigit()`, else return `s`.  The source's `players`
argument is already a string, so `str(p)` is the identity. -/
def fmt_players (p : PyStr) : PyStr :=
  let s := pyStrip p
  if pyIsdigit s then s ++ unitSuffix else s

/-- Counterexample to C6: the input `" TBD"` is not a string of decimal digits,
yet it is not rendered verbatim — the formatter strips the leading space first. -/
theorem fmt_players_counterexample :
    pyIsdigit (strCodes " TBD") = false ∧
    fmt_players (strCodes " TBD") ≠ strCodes " TBD" ∧
    fmt_players (strCodes " TBD") = strCodes "TBD" :=
  ⟨rfl, by decide, rfl⟩

/-- Claim C6 (amended): the value is first stripped of surrounding whitespace; if
the stripped value is a string of decimal digits the unit suffix is appended
(`"6"` becomes `"6 名"`), otherwise the stripped value is rendered (`"TBD"` stays
`"TBD"`; values differing from their stripped form are not returned verbatim). -/
theorem fmt_players_spec (p : PyStr) :
    fmt_players p =
      (if pyIsdigit (pyStrip p) then pyStrip p ++ unitSuffix else pyStrip p) ∧
    fmt_players (strCodes "6") = strCodes "6 名" ∧
    fmt_players (strCodes "TBD") = strCodes "TBD" :=
  ⟨rfl, rfl, rfl⟩

/-! ### Claims C7 and C8: the signup toggle (`MysterySignupView._toggle_role`) -/

/-- Python `int(s)` on a string: optional surrounding whitespace, optional sign,
then decimal digits (underscore group separators are not modelled); a
`ValueError` is modelled as `Except.error`. -/
def pyInt (s : PyStr) : Except String Int :=
  let t := pyStrip s
  let sgn : Bool × PyStr :=
    match t with
    | 45 :: rest => (true, rest)
    | 43 :: rest => (false, rest)
    | _ => (false, t)
  if sgn.2 ≠ [] ∧ sgn.2.all (fun d => 48 ≤ d && d ≤ 57) then
    .ok (if sgn.1 then -(sgn.2.foldl (fun acc d => acc * 10 + (d - 48)) 0 : Nat)
         else (sgn.2.foldl (fun acc d => acc * 10 + (d - 48)) 0 : Nat))
  else .error "invalid literal for int() with base 10"

/-- Which role a signup button toggles. -/
inductive RoleKind
  | participant
  | spectator
deriving DecidableEq

/-- Outcome of `MysterySignupView._toggle_role`, identifying which ephemeral reply
the handler sends (for a grant or removal, also which role id was toggled). -/
inductive ToggleResult
  | configError
  | roleNotFound
  | granted (rid : Int)
  | removed (rid : Int)
  | genericError
deriving DecidableEq

/-- The id-extraction loop of `_toggle_role` (src/main.py:327-331): scan the
payload parts split on `"|"`, remembering the last `participant=`/`spectator=`
value.  `part.split("=", 1)[1]` equals dropping the matched key, whose only `"="`
is its final character.  An `int` failure aborts the handler (the `ValueError`
propagates to the outer `except`). -/
def parseIdsLoop : List PyStr → Option Int → Option Int →
    Except String (Option Int × Option Int)
  | [], p, q => .ok (p, q)
  | part :: rest, p, q =>
    if participantKey.isPrefixOf part then
      match pyInt (part.drop participantKey.length) with
      | .ok v => parseIdsLoop rest (some v) q
      | .error e => .error e
    else if spectatorKey.isPrefixOf part then
      match pyInt (part.drop spectatorKey.length) with
      | .ok v => parseIdsLoop rest p (some v)
      | .error e => .error e
    else parseIdsLoop rest p q

/-- The role id `_toggle_role` will act on: decode the footer (`or ""` on
failure), split on `"|"`, run the extraction loop and select the id for the
requested kind. -/
def targetOf (footer : PyStr) (kind : RoleKind) : Except String (Option Int) :=
  let payload := (_reveal_payload footer).getD []
  (parseIdsLoop (payload.splitOn 124) none none).map fun ids =>
    match kind with
    | .participant => ids.1
    | .spectator => ids.2

/-- The guild state `_toggle_role` reads and writes: which role ids exist
(`guild.get_role`) and the acting member's current role ids (`member.roles`). -/
structure GuildCtx where
  roles : Int → Bool
  memberRoles : List Int

/-- `MysterySignupView._toggle_role` (src/main.py:316-350), modelled from the
fetched footer text onward.  Python truthiness of `target_role_id`: `None` and
`0` are falsy, so both report the configuration error.  The role add/remove
primitives are assumed to succeed (their failure would be caught by the same
outer `except` that catches the `int` `ValueError`, modelled as `genericError`).
Returns the reported outcome and the member's new role-id list. -/
def toggleRole (ctx : GuildCtx) (footer : PyStr) (kind : RoleKind) :
    ToggleResult × List Int :=
  match targetOf footer kind with
  | .error _ => (.genericError, ctx.memberRoles)
  | .ok none => (.configError, ctx.memberRoles)
  | .ok (some rid) =>
    if rid = 0 then (.configError, ctx.memberRoles)
    else if ctx.roles rid then
      if rid ∈ ctx.memberRoles then (.removed rid, ctx.memberRoles.erase rid)
      else (.granted rid, ctx.memberRoles ++ [rid])
    else (.roleNotFound, ctx.memberRoles)

/-- Claim C7: the signup toggle.  If the decoded payload yields no relevant role
id or a zero id, a configuration error is reported and the member's roles do not
change; if the id resolves to no existing role, a not-found error is reported;
otherwise the membership marker is flipped — removed if held, granted if not — so
two consecutive join actions starting without the marker first grant and then
remove it, restoring the initial state. -/
theorem toggle_role_spec (roles : Int → Bool) (mr : List Int) (footer : PyStr)
    (kind : RoleKind) :
    (targetOf footer kind = .ok none →
      toggleRole ⟨roles, mr⟩ footer kind = (.configError, mr)) ∧
    (targetOf footer kind = .ok (some 0) →
      toggleRole ⟨roles, mr⟩ footer kind = (.configError, mr)) ∧
    (∀ rid, rid ≠ 0 → targetOf footer kind = .ok (some rid) → roles rid = false →
      toggleRole ⟨roles, mr⟩ footer kind = (.roleNotFound, mr)) ∧
    (∀ rid, rid ≠ 0 → targetOf footer kind = .ok (some rid) → roles rid = true →
      rid ∈ mr → toggleRole ⟨roles, mr⟩ footer kind = (.removed rid, mr.erase rid)) ∧
    (∀ rid, rid ≠ 0 → targetOf footer kind = .ok (some rid) → roles rid = true →
      rid ∉ mr →
      toggleRole ⟨roles, mr⟩ footer kind = (.granted rid, mr ++ [rid]) ∧
      toggleRole ⟨roles, mr ++ [rid]⟩ footer kind = (.removed rid, mr)) := by
  refine ⟨?_, ?_, ?_, ?_, ?_⟩
  · intro h
    simp [toggleRole, h]
  · intro h
    simp [toggleRole, h]
  · intro rid h0 h hr
    simp [toggleRole, h, h0, hr]
  · intro rid h0 h hr hmem
    simp [toggleRole, h, h0, hr, hmem]
  · intro rid h0 h hr hmem
    constructor
    · simp [toggleRole, h, h0, hr, hmem]
    · have hmem2 : rid ∈ mr ++ [rid] := by simp
      have herase : (mr ++ [rid]).erase rid = mr := by
        rw [List.erase_append_right _ hmem]
        simp
      simp [toggleRole, h, h0, hr, hmem2, herase]

/-- Witness for C7: a legacy plaintext footer with participant role 1; two joins
by a member starting with no roles grant and then remove role 1. -/
theorem toggle_role_spec_witness :
    toggleRole ⟨fun r => r == 1 || r == 2, []⟩ (strCodes "participant=1|spectator=2")
        RoleKind.participant = (.granted 1, [1]) ∧
    toggleRole ⟨fun r => r == 1 || r == 2, [1]⟩ (strCodes "participant=1|spectator=2")
        RoleKind.participant = (.removed 1, []) :=
  (toggle_role_spec (fun r => r == 1 || r == 2) [] (strCodes "participant=1|spectator=2")
    RoleKind.participant).2.2.2.2 1 (by decide) rfl rfl (by decide)

/-- Counterexample to C8: a payload with a non-numeric participant id makes the
handler raise inside its `try` block, so the user gets the generic error report,
not the missing-role-id configuration error (the payload is not "treated as
absent"). -/
theorem toggle_nonnumeric_counterexample :
    toggleRole ⟨fun _ => false, []⟩ (strCodes "participant=x|spectator=2")
      RoleKind.participant = (.genericError, []) ∧
    ToggleResult.genericError ≠ ToggleResult.configError :=
  ⟨rfl, by decide⟩

/-- Claim C8 (amended): a decoded payload that fails the id invariant is not
uniformly reported as the configuration error.  A payload missing the relevant id
or carrying a zero id yields the configuration error; a non-numeric id value
raises `ValueError`, which the outer `except` catches and reports as the generic
error.  In every such case no membership marker changes. -/
theorem toggle_invalid_payload_spec (roles : Int → Bool) (mr : List Int)
    (footer : PyStr) (kind : RoleKind) :
    (∀ e, targetOf footer kind = .error e →
      toggleRole ⟨roles, mr⟩ footer kind = (.genericError, mr)) ∧
    (targetOf footer kind = .ok none →
      toggleRole ⟨roles, mr⟩ footer kind = (.configError, mr)) ∧
    (targetOf footer kind = .ok (some 0) →
      toggleRole ⟨roles, mr⟩ footer kind = (.configError, mr)) := by
  refine ⟨?_, ?_, ?_⟩
  · intro e h
    simp [toggleRole, h]
  · intro h
    simp [toggleRole, h]
  · intro h
    simp [toggleRole, h]

/-- Witness for C8's amended claim at the non-numeric payload. -/
theorem toggle_invalid_payload_witness :
    toggleRole ⟨fun _ => false, [5]⟩ (strCodes "participant=x|spectator=2")
      RoleKind.participant = (.genericError, [5]) :=
  (toggle_invalid_payload_spec (fun _ => false) [5] (strCodes "participant=x|spectator=2")
    RoleKind.participant).1 "invalid literal for int() with base 10" rfl

/-! ### Claim C9: history registration (`register_mystery_history`) -/

/-- A guild member, as far as the history registration needs one: the user id and
the display name used as sort key. -/
structure Member where
  id : Nat
  displayName : PyStr
deriving DecidableEq

/-- Models `str.lower()` restricted to ASCII letters. -/
def pyLower (s : PyStr) : PyStr :=
  s.map (fun c => if 65 ≤ c ∧ c ≤ 90 then c + 32 else c)

/-- Lexicographic comparison of code-point strings, Python's string ordering. -/
def lexLe : PyStr → PyStr → Bool
  | [], _ => true
  | _ :: _, [] => false
  | a :: s, b :: t => if a < b then true else if a = b then lexLe s t else false

/-- The sort key of `get_played_members`: `m.display_name.lower()`. -/
def nameKeyLe (a b : Member) : Bool :=
  lexLe (pyLower a.displayName) (pyLower b.displayName)

/-- `get_played_members` (src/main.py:78-86): resolve the queued user ids to
members — dropping ids that no longer resolve via `guild.get_member` — and sort
by lower-cased display name.  The `queue` list order stands in for the arbitrary
iteration order of the Python set. -/
def get_played_members (queue : List Nat) (getMember : Nat → Option Member) :
    List Member :=
  (queue.filterMap getMember).mergeSort nameKeyLe

/-- Auxiliary for `natToStr`; the fuel only makes the recursion structural and is
always supplied greater than the number of digits. -/
def natToStrAux : Nat → Nat → PyStr
  | 0, _ => []
  | fuel + 1, n => if n < 10 then [48 + n] else natToStrAux fuel (n / 10) ++ [48 + n % 10]

/-- Python `str(n)` for a natural number: decimal digits. -/
def natToStr (n : Nat) : PyStr := natToStrAux (n + 1) n

/-- Python `x or "-"` on a string: the empty string is falsy and replaced by the
placeholder. -/
def pyOrDash (s : PyStr) : PyStr := if s = [] then strCodes "-" else s

/-- One id-list field of the CSV row: `",".join(str(i) for i in ids) or "-"`. -/
def idsField (ids : List Nat) : PyStr :=
  pyOrDash (List.intercalate (strCodes ",") (ids.map natToStr))

/-- The CSV row appended by `register_mystery_history` (src/main.py:613-619). -/
structure HistoryRecord where
  scenario : PyStr
  playedAt : PyStr
  participantIds : PyStr
  spectatorIds : PyStr
  attendedIds : PyStr
deriving DecidableEq

/-- What a history registration produces: the persisted row, the two
successful-removal counters, and the attendance queue afterwards. -/
structure RegisterOutcome where
  record : HistoryRecord
  removedParticipants : Nat
  removedSpectators : Nat
  newQueue : List Nat
deriving DecidableEq

/-- `register_mystery_history` (src/main.py:582-656), modelled from the resolved
role and member state onward: `queue` is the guild's attendance queue (in
iteration order), `prMembers`/`spMembers` the members holding the two roles,
`getMember` the guild member table, and `removePrOk`/`removeSpOk` which
per-member role removals succeed (a failure is a caught `discord.Forbidden`,
which only skips that member's counter increment).  The CSV row is computed
before the removals and the queue is cleared unconditionally after them. -/
def register_mystery_history (scenario now : PyStr) (queue : List Nat)
    (prMembers spMembers : List Member) (getMember : Nat → Option Member)
    (removePrOk removeSpOk : Member → Bool) : RegisterOutcome :=
  let played := get_played_members queue getMember
  let playedIds := played.map Member.id
  { record :=
      { scenario := scenario
        playedAt := now
        participantIds := idsField (prMembers.map Member.id)
        spectatorIds := idsField (spMembers.map Member.id)
        attendedIds := idsField playedIds }
    removedParticipants := (prMembers.filter removePrOk).length
    removedSpectators := (spMembers.filter removeSpOk).length
    newQueue := [] }

/-- Counterexample to C9: with the non-empty queue `[42]` (size `k = 1`) whose
user no longer resolves to a guild member, the persisted attended-id list is the
placeholder `"-"`, not the queued identifier — the queue is still cleared. -/
theorem register_history_counterexample :
    (register_mystery_history (strCodes "S") (strCodes "T") [42] [] []
        (fun _ => none) (fun _ => false) (fun _ => false)).record.attendedIds =
      strCodes "-" ∧
    strCodes "-" ≠ idsField [42] ∧
    (register_mystery_history (strCodes "S") (strCodes "T") [42] [] []
        (fun _ => none) (fun _ => false) (fun _ => false)).newQueue = [] := by
  refine ⟨?_, by decide, rfl⟩
  show idsField ((([42].filterMap fun _ => none).mergeSort nameKeyLe).map Member.id) =
    strCodes "-"
  rw [show ([42].filterMap fun _ => (none : Option Member)) = [] from rfl,
    List.mergeSort_nil]
  rfl

/-- Claim C9 (amended): history registration always clears the attendance queue
to size 0, regardless of how many per-member role removals fail, and the
persisted attended-id list is the comma-join (a single placeholder character when
empty) of exactly those queued identifiers that still resolve to guild members,
in display-name order; in particular, when every queued id resolves it contains
exactly the `k` queued identifiers. -/
theorem register_history_spec (scenario now : PyStr) (queue : List Nat)
    (prMembers spMembers : List Member) (getMember : Nat → Option Member)
    (removePrOk removeSpOk : Member → Bool)
    (hM : ∀ u m, getMember u = some m → m.id = u) :
    (register_mystery_history scenario now queue prMembers spMembers getMember
        removePrOk removeSpOk).newQueue = [] ∧
    (∃ ids : List Nat,
      ids.Perm ((queue.filterMap getMember).map Member.id) ∧
      (register_mystery_history scenario now queue prMembers spMembers getMember
          removePrOk removeSpOk).record.attendedIds = idsField ids ∧
      ((∀ u ∈ queue, (getMember u).isSome) → ids.Perm queue)) := by
  have key : ∀ q : List Nat, (∀ u ∈ q, (getMember u).isSome) →
      (q.filterMap getMember).map Member.id = q := by
    intro q
    induction q with
    | nil => intro _; rfl
    | cons u rest ih =>
      intro hq
      rcases hmu : getMember u with _ | m
      · have h1 := hq u (List.mem_cons_self u rest)
        rw [hmu] at h1
        simp at h1
      · simp only [List.filterMap_cons, hmu, List.map_cons]
        rw [hM u m hmu, ih (fun x hx => hq x (List.mem_cons_of_mem _ hx))]
  refine ⟨rfl, ⟨((queue.filterMap getMember).mergeSort nameKeyLe).map Member.id, ?_, rfl, ?_⟩⟩
  · exact (List.mergeSort_perm _ _).map _
  · intro hall
    exact ((List.mergeSort_perm _ _).map Member.id).trans (by rw [key queue hall])

/-- Witness for C9's amended claim: queue `[2, 1]`, both ids resolving. -/
theorem register_history_spec_witness :
    (register_mystery_history (strCodes "S") (strCodes "T") [2, 1] [] []
        (fun u => some ⟨u, []⟩) (fun _ => false) (fun _ => true)).newQueue = [] ∧
    (∃ ids : List Nat,
      ids.Perm (([2, 1].filterMap (fun u => some (⟨u, []⟩ : Member))).map Member.id) ∧
      (register_mystery_history (strCodes "S") (strCodes "T") [2, 1] [] []
          (fun u => some ⟨u, []⟩) (fun _ => false) (fun _ => true)).record.attendedIds =
        idsField ids ∧
      ((∀ u ∈ [2, 1], ((fun u => some (⟨u, []⟩ : Member)) u).isSome) → ids.Perm [2, 1])) :=
  register_history_spec (strCodes "S") (strCodes "T") [2, 1] [] []
    (fun u => some ⟨u, []⟩) (fun _ => false) (fun _ => true)
    (fun u m h => by injection h with h2; rw [← h2])

end Madamisu
